import Mathlib

/-!
# Verification of the blockchain-fixture test harness
Shallow embedding of `tests/helpers/load_state_tests.py`: fixture discovery
(`fetch_state_test_files`, `load_json_fixture`), fixture decoding (`load_test`),
and the replay-and-verify oracle (`run_blockchain_st_test`,
`add_blocks_to_chain`).  External collaborators (the `ethereum.rlp` codec, the
`Load` adapter from `ethereum_spec_tools`, the state-transition engine, and the
Python `re` / `unittest.mock` standard-library modules) are modelled at their
interface boundary; every such modelling is marked in its doc comment.
-/

namespace LoadStateTests

/-- A block-header hash, as produced by the external `ethereum.rlp.rlp_hash`. -/
abbrev Hash := Nat

/-- A raw byte string (an RLP encoding). -/
abbrev Bytes := List Nat

/-- An account/storage state store (compared for equality and released by
`close_state`); its internals are opaque to the harness. -/
abbrev EthState := Nat

/-- A failure raised by the external state-transition engine
(`InvalidBlock`, `RLPDecodingError`, ...). -/
inductive EngineError where
  | invalidBlock
  | rlpDecodingError
  | custom (n : Nat)
deriving DecidableEq, Repr

/-- A block header.  The harness treats headers opaquely except for hashing
them and probing (`hasattr`) whether the header shape carries a
`withdrawals_root` field. -/
structure Header where
  data : Nat
  hasWithdrawalsRoot : Bool
deriving DecidableEq, Repr

/-- A block: header plus transactions, ommers, and (for withdrawal-bearing
header shapes only) a withdrawals list, mirroring `load.Block(*parameters)`. -/
structure Block where
  header : Header
  transactions : List Nat
  ommers : List Nat
  withdrawals : Option (List Nat)
deriving DecidableEq, Repr

/-- The replay-time chain accumulator, mirroring
`load.BlockChain(blocks=..., state=..., chain_id=...)`. -/
structure Chain where
  blocks : List Block
  state : EthState
  chain_id : Nat
deriving DecidableEq, Repr

/-- The JSON value under `genesisBlockHeader`: structured header fields plus
the optional `chainId` and the `hash` member read by `load_test`. -/
structure HeaderJson where
  header : Header
  chainId : Option Nat
  hash : Option Hash
deriving DecidableEq, Repr

/-- One entry of a fixture's `blocks` array: either structurally valid, in
which case decoding yields the block, its declared header hash and its
declared raw encoding, or structurally invalid. -/
inductive BlockJson where
  | valid (b : Block) (headerHash : Hash) (rlpBytes : Bytes)
  | malformed
deriving DecidableEq, Repr

/-- A top-level test object of a fixture file.  Every field the harness reads
is present as an `Option`, `none` modelling an absent JSON member. -/
structure JsonTest where
  network : Option String
  genesisBlockHeader : Option HeaderJson
  genesisRLP : Option Bytes
  lastblockhash : Option Hash
  pre : Option EthState
  postState : Option EthState
  blocks : Option (List BlockJson)
  sealEngine : Option String
deriving DecidableEq, Repr

/-- A fixture file: an ordered mapping of test-name to test object. -/
abbrev FixtureFile := List (String × JsonTest)

/-- The fixture corpus: an ordered mapping of file path to file content,
modelling the directory tree walked by the discoverer. -/
abbrev FS := List (String × FixtureFile)

/-- Reference to one test case, as yielded by `load_json_fixture`. -/
structure TestCaseRef where
  test_file : String
  test_key : String
deriving DecidableEq, Repr

/-- Failures of `load_test`: a missing file (`open` fails), a missing
required JSON member (Python `KeyError`), a structurally invalid fixture, or
the dedicated `NoPostState` signal. -/
inductive LoadErr where
  | fileNotFound
  | keyError (field : String)
  | malformedFixture
  | noPostState
deriving DecidableEq, Repr

/-- Every way a replay can fail.  Each constructor labels one failure site of
`run_blockchain_st_test` / `add_blocks_to_chain` (in the Python source they
are `assert` statements and propagated exceptions; the index records at which
block the failing site was reached). -/
inductive ReplayErr where
  | load (e : LoadErr)
  | genesisHashMismatch
  | harnessIndexError
  | blockHashMismatch (i : Nat)
  | blockEncodingMismatch (i : Nat)
  | stateTransitionFailed (i : Nat) (cause : EngineError)
  | powCallsMismatch
  | finalHashMismatch
  | postStateMismatch
deriving DecidableEq, Repr

/-- The bundle of external collaborators used by one replay: the
`ethereum.rlp` codec, and the `Load` adapter's engine operations.
`state_transition` is the engine with its real proof-of-work validation;
`state_transition_bypassed` is the same engine as observed while
`validate_proof_of_work` is patched to the always-succeeding mock. -/
structure Load where
  rlp_hash : Header → Hash
  encodeBlock : Block → Bytes
  state_transition : Chain → Block → Except EngineError Chain
  state_transition_bypassed : Chain → Block → Except EngineError Chain
  proof_of_stake : Bool

/-- `require o e` models a Python dict access: the value when the member is
present, the error `e` when it is absent. -/
def require {α : Type} (o : Option α) (e : LoadErr) : Except LoadErr α :=
  match o with
  | none => Except.error e
  | some a => Except.ok a

/-- First-match association lookup (Python dict access; file paths and test
keys are unique in real fixture data). -/
def assocLookup {α : Type} : List (String × α) → String → Option α
  | [], _ => none
  | (k, v) :: rest, q => if k = q then some v else assocLookup rest q

/-- Modelled from the spec: `Load.json_to_blocks` (external
`ethereum_spec_tools` fixture loader, absent from the sources).  Per §4.3,
block-list decoding preserves fixture order and captures each block's header
hash and raw encoding independently from its structured fields; a
structurally invalid entry fails decoding. -/
def json_to_blocks : List BlockJson → Except LoadErr (List Block × List Hash × List Bytes)
  | [] => Except.ok ([], [], [])
  | BlockJson.malformed :: _ => Except.error LoadErr.malformedFixture
  | BlockJson.valid b h r :: rest =>
    match json_to_blocks rest with
    | Except.error e => Except.error e
    | Except.ok (bs, hs, rs) => Except.ok (b :: bs, h :: hs, r :: rs)

/-- Modelled from the spec: `Load.json_to_state` (external fixture loader);
builds the state store for a raw state object. -/
def json_to_state (s : EthState) : EthState := s

/-- The decoded test record returned by `load_test` (the Python dict literal,
field for field; `test_file`/`test_key` are omitted as they are only echoed
back). -/
structure TestData where
  genesis_header : Header
  chain_id : Nat
  genesis_header_hash : Hash
  genesis_block_rlp : Bytes
  last_block_hash : Hash
  pre_state : EthState
  expected_post_state : EthState
  blocks : List Block
  block_header_hashes : List Hash
  block_rlps : List Bytes
  ignore_pow_validation : Bool
deriving DecidableEq, Repr

/-- `load_test` (lines 30-66): open the fixture file, select the test object,
decode the block list, then check for `postState` (its absence raises
`NoPostState`), then build the result record.  The evaluation order of the
fallible accesses follows the Python source exactly: file, key, `blocks`,
block decoding, `postState`, then the dict-literal fields in order. -/
def load_test (fs : FS) (tc : TestCaseRef) : Except LoadErr TestData := do
  let fileData ← require (assocLookup fs tc.test_file) LoadErr.fileNotFound
  let json_data ← require (assocLookup fileData tc.test_key) (LoadErr.keyError "test_key")
  let rawBlocks ← require json_data.blocks (LoadErr.keyError "blocks")
  let decoded ← json_to_blocks rawBlocks
  let rawPost ← require json_data.postState LoadErr.noPostState
  let post_state := json_to_state rawPost
  let gh ← require json_data.genesisBlockHeader (LoadErr.keyError "genesisBlockHeader")
  let ghash ← require gh.hash (LoadErr.keyError "hash")
  let grlp ← require json_data.genesisRLP (LoadErr.keyError "genesisRLP")
  let lbh ← require json_data.lastblockhash (LoadErr.keyError "lastblockhash")
  let pre ← require json_data.pre (LoadErr.keyError "pre")
  let sealEng ← require json_data.sealEngine (LoadErr.keyError "sealEngine")
  Except.ok {
    genesis_header := gh.header
    chain_id := gh.chainId.getD 1
    genesis_header_hash := ghash
    genesis_block_rlp := grlp
    last_block_hash := lbh
    pre_state := pre
    expected_post_state := post_state
    blocks := decoded.1
    block_header_hashes := decoded.2.1
    block_rlps := decoded.2.2
    ignore_pow_validation := sealEng == "NoProof" }

/-- The genesis block built by `run_blockchain_st_test` (lines 73-82): the
genesis header with empty transaction and ommer collections, plus an empty
withdrawals collection exactly when the header shape carries a
`withdrawals_root` field. -/
def genesis_block (td : TestData) : Block :=
  { header := td.genesis_header
    transactions := []
    ommers := []
    withdrawals := if td.genesis_header.hasWithdrawalsRoot then some [] else none }

/-- The engine operation actually run for this replay (line 99): the
pow-mocked engine when the fixture requests consensus bypass and the engine
is not proof-of-stake, the real engine otherwise. -/
def selectedApp (L : Load) (td : TestData) : Chain → Block → Except EngineError Chain :=
  if td.ignore_pow_validation && !L.proof_of_stake then
    L.state_transition_bypassed
  else
    L.state_transition

/-- Result of the block-application loop: the failure (if any), the chain as
it stands when the loop ends, the headers the mocked
`validate_proof_of_work` hook was invoked with (in call order), and the
blocks the engine's state-transition operation was invoked with (in call
order). -/
structure BlocksOut where
  err : Option ReplayErr
  chain : Chain
  powCalls : List Header
  applyCalls : List Block
deriving DecidableEq, Repr

/-- Outcome of handling one block of the loop: a check failed before the
engine was invoked, the engine was invoked and rejected the block, or the
engine was invoked and accepted it. -/
inductive StepResult where
  | failedBefore (e : ReplayErr)
  | failedApply (e : ReplayErr)
  | applied (chain' : Chain)
deriving DecidableEq, Repr

/-- One iteration of the `add_blocks_to_chain` loop body (lines 123-128):
assert the block's header hash against `block_header_hashes[idx]`, assert its
encoding against `block_rlps[idx]`, and only then invoke the engine's
state-transition operation. -/
def blockStep (rlpHash : Header → Hash) (encB : Block → Bytes)
    (app : Chain → Block → Except EngineError Chain)
    (hashes : List Hash) (rlps : List Bytes)
    (idx : Nat) (b : Block) (chain : Chain) : StepResult :=
  match hashes[idx]? with
  | none => StepResult.failedBefore ReplayErr.harnessIndexError
  | some h =>
    if rlpHash b.header = h then
      match rlps[idx]? with
      | none => StepResult.failedBefore ReplayErr.harnessIndexError
      | some r =>
        if encB b = r then
          match app chain b with
          | Except.error e => StepResult.failedApply (ReplayErr.stateTransitionFailed idx e)
          | Except.ok chain' => StepResult.applied chain'
        else StepResult.failedBefore (ReplayErr.blockEncodingMismatch idx)
    else StepResult.failedBefore (ReplayErr.blockHashMismatch idx)

/-- The `add_blocks_to_chain` loop (lines 120-128), one `blockStep` per
block, in order, stopping at the first failure.  `recordCalls` is true when
`validate_proof_of_work` is patched; the recording of one hook invocation
per successfully applied block, with that block's header, is modelled from
the spec (§4.4.5: the engine routes each applied block through the
validation hook once, with the block's header). -/
def addBlocksAux (rlpHash : Header → Hash) (encB : Block → Bytes)
    (app : Chain → Block → Except EngineError Chain) (recordCalls : Bool)
    (hashes : List Hash) (rlps : List Bytes) :
    Nat → List Block → Chain → List Header → List Block → BlocksOut
  | _, [], chain, pow, ap => ⟨none, chain, pow, ap⟩
  | idx, b :: rest, chain, pow, ap =>
    match blockStep rlpHash encB app hashes rlps idx b chain with
    | StepResult.failedBefore e => ⟨some e, chain, pow, ap⟩
    | StepResult.failedApply e => ⟨some e, chain, pow, ap ++ [b]⟩
    | StepResult.applied chain' =>
      addBlocksAux rlpHash encB app recordCalls hashes rlps
        (idx + 1) rest chain'
        (pow ++ (if recordCalls then [b.header] else []))
        (ap ++ [b])

/-- `add_blocks_to_chain` (lines 120-128), started on the whole block list. -/
def add_blocks_to_chain (rlpHash : Header → Hash) (encB : Block → Bytes)
    (app : Chain → Block → Except EngineError Chain) (recordCalls : Bool)
    (td : TestData) (chain : Chain) : BlocksOut :=
  addBlocksAux rlpHash encB app recordCalls
    td.block_header_hashes td.block_rlps 0 td.blocks chain [] []

/-- `startsWithList n h` : the list `n` is an initial segment of `h`. -/
def startsWithList {α : Type} [DecidableEq α] : List α → List α → Bool
  | [], _ => true
  | _ :: _, [] => false
  | a :: as, b :: bs => if a = b then startsWithList as bs else false

/-- `listHasRun n h` : the list `n` occurs inside `h` as a consecutive run.
Models `unittest.mock`'s `assert_has_calls(..., any_order=False)`, which
checks the expected calls appear consecutively within the mock's recorded
calls. -/
def listHasRun {α : Type} [DecidableEq α] (needle : List α) : List α → Bool
  | [] => startsWithList needle []
  | b :: bs => startsWithList needle (b :: bs) || listHasRun needle bs

/-- Everything observable about one run of `run_blockchain_st_test`: the
failure (if any; `none` means the replay passed), the chain (if it was
constructed), the recorded mock-hook invocations, the engine invocations,
and the arguments passed to `load.close_state`, in call order. -/
structure RunOut where
  err : Option ReplayErr
  chain : Option Chain
  powCalls : List Header
  applyCalls : List Block
  closes : List EthState
deriving DecidableEq, Repr

/-- The tail of `run_blockchain_st_test` (lines 107-117), after the block
loop ends with `out`: on a loop failure the error propagates; otherwise, in
mock mode, the mock's recorded calls are checked with `assert_has_calls`;
then the final block hash and the post-state are asserted, and only when
everything passed are the two state stores released. -/
def afterBlocks (L : Load) (td : TestData) (mock : Bool) (out : BlocksOut) : RunOut :=
  match out.err with
  | some e => ⟨some e, some out.chain, out.powCalls, out.applyCalls, []⟩
  | none =>
    if mock && !(listHasRun (td.blocks.map (fun b => b.header)) out.powCalls) then
      ⟨some ReplayErr.powCallsMismatch, some out.chain, out.powCalls, out.applyCalls, []⟩
    else
      match out.chain.blocks.getLast? with
      | none => ⟨some ReplayErr.harnessIndexError, some out.chain, out.powCalls, out.applyCalls, []⟩
      | some lastB =>
        if L.rlp_hash lastB.header = td.last_block_hash then
          if out.chain.state = td.expected_post_state then
            ⟨none, some out.chain, out.powCalls, out.applyCalls,
              [out.chain.state, td.expected_post_state]⟩
          else ⟨some ReplayErr.postStateMismatch, some out.chain, out.powCalls, out.applyCalls, []⟩
        else ⟨some ReplayErr.finalHashMismatch, some out.chain, out.powCalls, out.applyCalls, []⟩

/-- `run_blockchain_st_test` after decoding (lines 73-117): build the genesis
block, assert the genesis header hash (the byte-exact genesis-encoding
assertion of lines 88-91 is commented out in the source and hence absent
here), build the chain, then run the block loop — with
`validate_proof_of_work` patched exactly when `ignore_pow_validation` holds
and the engine is not proof-of-stake — and finish with `afterBlocks`. -/
def run_decoded (L : Load) (td : TestData) : RunOut :=
  if L.rlp_hash td.genesis_header = td.genesis_header_hash then
    afterBlocks L td (td.ignore_pow_validation && !L.proof_of_stake)
      (add_blocks_to_chain L.rlp_hash L.encodeBlock (selectedApp L td)
        (td.ignore_pow_validation && !L.proof_of_stake) td
        ⟨[genesis_block td], td.pre_state, td.chain_id⟩)
  else ⟨some ReplayErr.genesisHashMismatch, none, [], [], []⟩

/-- `run_blockchain_st_test` (lines 69-117): decode with `load_test`, then
replay; a decoding failure propagates and nothing of the replay runs. -/
def run_blockchain_st_test (L : Load) (fs : FS) (tc : TestCaseRef) : RunOut :=
  match load_test fs tc with
  | Except.error e => ⟨some (ReplayErr.load e), none, [], [], []⟩
  | Except.ok td => run_decoded L td

/-- `pytest.raises` around the replay, as used in
`tests/shanghai/test_state_transition.py`: the top-level scenario passes
exactly when the replay failed and the engine-raised failure is of the
expected kind. -/
def pytest_raises_stf (expected : EngineError → Bool) (out : RunOut) : Bool :=
  match out.err with
  | some (ReplayErr.stateTransitionFailed _ cause) => expected cause
  | _ => false

/-- The engine's documented success contract (spec §4.4.6d: "On success,
append the block to the Chain"): an accepted block extends the chain by
exactly that block. -/
def EngineAppends (app : Chain → Block → Except EngineError Chain) : Prop :=
  ∀ c b c', app c b = Except.ok c' → c'.blocks = c.blocks ++ [b]

/-- `charsStart n h` : the character list `n` is an initial segment of `h`. -/
def charsStart : List Char → List Char → Bool
  | [], _ => true
  | _ :: _, [] => false
  | a :: as, b :: bs => if a = b then charsStart as bs else false

/-- `charsHas n h` : the character list `n` occurs inside `h` contiguously. -/
def charsHas (n : List Char) : List Char → Bool
  | [] => charsStart n []
  | c :: cs => charsStart n (c :: cs) || charsHas n cs

/-- Modelled from the spec: a pattern of the ignore/slow/big-memory lists
(§4.1).  A pattern is a regular expression evaluated with `re.search`
(unanchored search) semantics; the model keeps the two shapes the claims
need — a plain substring pattern (a regex with no anchors, matching anywhere)
and a fully anchored pattern (`^...$`, matching only the whole string) — plus
the syntactically invalid pattern rejected by `re.compile`. -/
inductive Pattern where
  | literal (s : String)
  | anchored (s : String)
  | invalid
deriving DecidableEq, Repr

/-- `re.search` of a compiled pattern against a string. -/
def Pattern.search : Pattern → String → Bool
  | Pattern.literal n, s => charsHas n.data s.data
  | Pattern.anchored n, s => n == s
  | Pattern.invalid, _ => false

/-- Is this pattern rejected by `re.compile`? -/
def Pattern.isInvalid : Pattern → Bool
  | Pattern.invalid => true
  | _ => false

/-- `any(x.search(s) for x in pats)`. -/
def matchesAny (pats : List Pattern) (s : String) : Bool :=
  pats.any (fun p => p.search s)

/-- The keys collected by `load_json_fixture` (lines 143-148): the keys of
the test objects that carry a `network` member equal (exactly,
case-sensitively) to the requested network. -/
def foundKeys (ff : FixtureFile) (network : String) : List String :=
  (ff.filter (fun kt => kt.2.network == some network)).map (fun kt => kt.1)

/-- Failures of the discoverer: an invalid regular expression
(`re.error` from `re.compile`), a per-file `NoTestsFound`, or a missing
file from an explicit `only_in` list (`open` fails). -/
inductive DiscErr where
  | reError
  | noTestsFound
  | fileNotFound (p : String)
deriving DecidableEq, Repr

/-- `load_json_fixture` (lines 132-157): collect the participating keys, then
raise `NoTestsFound` on `not any(found_keys)` — Python truthiness, so the
check fires exactly when every collected key is the empty string (in
particular when none was collected). -/
def load_json_fixture (ff : FixtureFile) (network : String) : Except DiscErr (List String) :=
  if (foundKeys ff network).all (fun k => k == "") then Except.error DiscErr.noTestsFound
  else Except.ok (foundKeys ff network)

/-- Discovery output: a test-case reference plus the pytest mark it was
tagged with (`pytest.param(..., marks=...)`; `plain` is an untagged yield). -/
inductive Tag where
  | plain
  | slow
  | bigmem
deriving DecidableEq, Repr

/-- One yielded test case. -/
structure YieldItem where
  ref : TestCaseRef
  tag : Tag
deriving DecidableEq, Repr

/-- The per-case classification of `fetch_state_test_files` (lines 200-214):
build the composite identifier, drop on an ignore match, else tag slow, else
tag big-memory, else yield untagged. -/
def tagItem (slowPats bigPats ignorePats : List Pattern) (p k : String) : Option YieldItem :=
  if matchesAny ignorePats ("(" ++ p ++ "|" ++ k ++ ")") then none
  else if matchesAny slowPats ("(" ++ p ++ "|" ++ k ++ ")") then some ⟨⟨p, k⟩, Tag.slow⟩
  else if matchesAny bigPats ("(" ++ p ++ "|" ++ k ++ ")") then some ⟨⟨p, k⟩, Tag.bigmem⟩
  else some ⟨⟨p, k⟩, Tag.plain⟩

/-- The cases yielded from one fixture file (lines 195-217): `NoTestsFound`
is caught and skips the file; otherwise each collected key is classified. -/
def processFile (slowPats bigPats ignorePats : List Pattern)
    (network p : String) (ff : FixtureFile) : List YieldItem :=
  match load_json_fixture ff network with
  | Except.error _ => []
  | Except.ok keys => keys.filterMap (tagItem slowPats bigPats ignorePats p)

/-- Directory-walk mode: every remaining file is read (in traversal order)
and its cases are yielded; the second component lists the files read. -/
def processFilesAux (slowPats bigPats ignorePats : List Pattern) (network : String) :
    List (String × FixtureFile) → List YieldItem × List String
  | [] => ([], [])
  | (p, ff) :: rest =>
    (processFile slowPats bigPats ignorePats network p ff
       ++ (processFilesAux slowPats bigPats ignorePats network rest).1,
     p :: (processFilesAux slowPats bigPats ignorePats network rest).2)

/-- Explicit-list (`only_in`) mode: each listed path is opened in order; a
missing file fails the iteration at that point. -/
def processPathsAux (fs : FS) (slowPats bigPats ignorePats : List Pattern) (network : String) :
    List String → Except DiscErr (List YieldItem) × List String
  | [] => (Except.ok [], [])
  | p :: rest =>
    match assocLookup fs p with
    | none => (Except.error (DiscErr.fileNotFound p), [])
    | some ff =>
      match processPathsAux fs slowPats bigPats ignorePats network rest with
      | (Except.ok ys, rs) =>
        (Except.ok (processFile slowPats bigPats ignorePats network p ff ++ ys), p :: rs)
      | (Except.error e, rs) => (Except.error e, p :: rs)

/-- Discoverer output: the yielded cases (or the failure), plus the fixture
files read from disk, in order. -/
structure FetchOut where
  result : Except DiscErr (List YieldItem)
  reads : List String
deriving Repr

/-- `fetch_state_test_files` (lines 160-217): compile the three pattern lists
(an invalid pattern raises `re.error` before any file is touched); then either
iterate the explicit `only_in` list, or walk the corpus, pre-filtering out
files whose full path matches an ignore pattern, and yield the classified
cases of each remaining file. -/
def fetch_state_test_files (fs : FS) (network : String) (only_in : List String)
    (slowPats bigPats ignorePats : List Pattern) : FetchOut :=
  if (slowPats ++ bigPats ++ ignorePats).any Pattern.isInvalid then
    ⟨Except.error DiscErr.reError, []⟩
  else if only_in.length ≠ 0 then
    ⟨(processPathsAux fs slowPats bigPats ignorePats network only_in).1,
     (processPathsAux fs slowPats bigPats ignorePats network only_in).2⟩
  else
    ⟨Except.ok (processFilesAux slowPats bigPats ignorePats network
        (fs.filter (fun e => !(matchesAny ignorePats e.1)))).1,
     (processFilesAux slowPats bigPats ignorePats network
        (fs.filter (fun e => !(matchesAny ignorePats e.1)))).2⟩

/-- The yield set exactly as claim C7 states it (written from the claim's
words, to be compared with the code's discoverer): every test key whose
`network` equals the requested network, minus those whose composite
identifier matches an ignore pattern, tagged slow / big-memory / untagged in
that precedence. -/
def claimed_yield (slowPats bigPats ignorePats : List Pattern) (network : String) :
    FS → List YieldItem
  | [] => []
  | (p, ff) :: rest =>
    ff.filterMap (fun kt =>
      if kt.2.network == some network then tagItem slowPats bigPats ignorePats p kt.1
      else none)
    ++ claimed_yield slowPats bigPats ignorePats network rest

/-! ### Concrete instances used to exercise the definitions -/

/-- A sample header (non-withdrawal shape). -/
def hdr (n : Nat) : Header := ⟨n, false⟩

/-- A sample block with empty body. -/
def blk (n : Nat) : Block := ⟨hdr n, [], [], none⟩

/-- A well-behaved external bundle: hashing reads the header datum, encoding
lists the header datum followed by the transactions, and the engine accepts
every block, appending it and leaving the state unchanged. -/
def okLoad : Load where
  rlp_hash := fun h => h.data
  encodeBlock := fun b => b.header.data :: b.transactions
  state_transition := fun c b => Except.ok ⟨c.blocks ++ [b], c.state, c.chain_id⟩
  state_transition_bypassed := fun c b => Except.ok ⟨c.blocks ++ [b], c.state, c.chain_id⟩
  proof_of_stake := false

/-- The same bundle, but the engine reports proof-of-stake operation. -/
def posLoad : Load := {okLoad with proof_of_stake := true}

/-- The same bundle, but the (bypassed) engine rejects the block whose header
datum is `2`. -/
def rejectLoad : Load :=
  {okLoad with
    state_transition_bypassed := fun c b =>
      if b.header.data = 2 then Except.error EngineError.invalidBlock
      else Except.ok ⟨c.blocks ++ [b], c.state, c.chain_id⟩}

/-- A decoded two-block test that replays successfully under `okLoad`. -/
def okTest : TestData where
  genesis_header := hdr 0
  chain_id := 1
  genesis_header_hash := 0
  genesis_block_rlp := [0]
  last_block_hash := 2
  pre_state := 7
  expected_post_state := 7
  blocks := [blk 1, blk 2]
  block_header_hashes := [1, 2]
  block_rlps := [[1], [2]]
  ignore_pow_validation := true

/-- The fixture object that decodes to `okTest`. -/
def okJson : JsonTest where
  network := some "Shanghai"
  genesisBlockHeader := some ⟨hdr 0, some 1, some 0⟩
  genesisRLP := some [0]
  lastblockhash := some 2
  pre := some 7
  postState := some 7
  blocks := some [BlockJson.valid (blk 1) 1 [1], BlockJson.valid (blk 2) 2 [2]]
  sealEngine := some "NoProof"

/-- A one-file corpus holding `okJson` under key `t`. -/
def okFS : FS := [("f.json", [("t", okJson)])]

/-- The reference to the single case of `okFS`. -/
def okRef : TestCaseRef := ⟨"f.json", "t"⟩

/-- `okJson` with a post-state that the replay will not reach. -/
def badPostJson : JsonTest := {okJson with postState := some 8}

/-- A corpus whose single case fails its post-state assertion. -/
def badPostFS : FS := [("f.json", [("t", badPostJson)])]

/-- `okTest` with a wrong declared header hash for its second block. -/
def badHashTest : TestData := {okTest with block_header_hashes := [1, 99]}

/-- `okTest` with a genesis encoding that does not match the genesis block. -/
def skipEncTest : TestData := {okTest with genesis_block_rlp := [5]}

/-- `okJson` with both `blocks` and `postState` absent. -/
def noBlocksJson : JsonTest := {okJson with blocks := none, postState := none}

/-- A corpus whose single fixture lacks both `blocks` and `postState`. -/
def noBlocksFS : FS := [("f.json", [("t", noBlocksJson)])]

/-- `okJson` with `postState` absent. -/
def noPostJson : JsonTest := {okJson with postState := none}

/-- A corpus whose single fixture lacks `postState`. -/
def noPostFS : FS := [("f.json", [("t", noPostJson)])]

/-- `okJson` with no `network` member. -/
def noNetJson : JsonTest := {okJson with network := none}

/-- `okJson` retagged to network `n`. -/
def netJson (n : String) : JsonTest := {okJson with network := some n}

/-- A two-file corpus for exercising discovery. -/
def discFS : FS :=
  [("a.json", [("k1", netJson "N"), ("k2", netJson "M")]),
   ("b.json", [("k3", netJson "N")])]

/-- A one-file corpus for the file-path-filtering counterexample. -/
def c7FS : FS := [("a.json", [("k", netJson "N")])]

/-- A mixed-file corpus: one network-less object next to one participating
object in the same fixture file. -/
def mixedFS : FS := [("m.json", [("kn", noNetJson), ("k1", netJson "N")])]

/-! ### Lemmas about the block-application loop -/

/-- A pre-engine failure of one loop iteration is one of the two checks (or
the harness's own index error), always reported at the iteration's index. -/
theorem blockStep_failedBefore_inv (rlpHash : Header → Hash) (encB : Block → Bytes)
    (app : Chain → Block → Except EngineError Chain)
    (hashes : List Hash) (rlps : List Bytes) (idx : Nat) (b : Block) (chain : Chain)
    (e : ReplayErr)
    (h : blockStep rlpHash encB app hashes rlps idx b chain = StepResult.failedBefore e) :
    e = ReplayErr.harnessIndexError ∨ e = ReplayErr.blockHashMismatch idx ∨
      e = ReplayErr.blockEncodingMismatch idx := by
  unfold blockStep at h
  repeat' split at h
  all_goals simp_all

/-- An engine rejection of one loop iteration carries the iteration's index
and exactly the engine's failure on the chain as it then stood. -/
theorem blockStep_failedApply_inv (rlpHash : Header → Hash) (encB : Block → Bytes)
    (app : Chain → Block → Except EngineError Chain)
    (hashes : List Hash) (rlps : List Bytes) (idx : Nat) (b : Block) (chain : Chain)
    (e : ReplayErr)
    (h : blockStep rlpHash encB app hashes rlps idx b chain = StepResult.failedApply e) :
    ∃ cause, e = ReplayErr.stateTransitionFailed idx cause ∧
      app chain b = Except.error cause := by
  unfold blockStep at h
  repeat' split at h
  all_goals simp_all

/-- A successful loop iteration is exactly a successful engine application. -/
theorem blockStep_applied_inv (rlpHash : Header → Hash) (encB : Block → Bytes)
    (app : Chain → Block → Except EngineError Chain)
    (hashes : List Hash) (rlps : List Bytes) (idx : Nat) (b : Block) (chain : Chain)
    (c' : Chain)
    (h : blockStep rlpHash encB app hashes rlps idx b chain = StepResult.applied c') :
    app chain b = Except.ok c' := by
  unfold blockStep at h
  repeat' split at h
  all_goals simp_all

/-- Without the patch, nothing is ever recorded against the mock hook. -/
theorem addBlocksAux_pow_not_recorded (rlpHash : Header → Hash) (encB : Block → Bytes)
    (app : Chain → Block → Except EngineError Chain) (hashes : List Hash) (rlps : List Bytes) :
    ∀ (bs : List Block) (idx : Nat) (c : Chain) (pow : List Header) (ap : List Block),
    (addBlocksAux rlpHash encB app false hashes rlps idx bs c pow ap).powCalls = pow := by
  intro bs
  induction bs with
  | nil => intro idx c pow ap; rfl
  | cons b rest ih =>
    intro idx c pow ap
    unfold addBlocksAux
    rcases hs : blockStep rlpHash encB app hashes rlps idx b c with e | e | c'
    · rfl
    · rfl
    · simpa using ih (idx + 1) c' pow (ap ++ [b])

/-- Under the patch, a loop that raises no failure records exactly one hook
invocation per block of the list, in order, with that block's header. -/
theorem addBlocksAux_pow_recorded (rlpHash : Header → Hash) (encB : Block → Bytes)
    (app : Chain → Block → Except EngineError Chain) (hashes : List Hash) (rlps : List Bytes) :
    ∀ (bs : List Block) (idx : Nat) (c : Chain) (pow : List Header) (ap : List Block),
    (addBlocksAux rlpHash encB app true hashes rlps idx bs c pow ap).err = none →
    (addBlocksAux rlpHash encB app true hashes rlps idx bs c pow ap).powCalls
      = pow ++ bs.map (fun b => b.header) := by
  intro bs
  induction bs with
  | nil => intro idx c pow ap _; simp [addBlocksAux]
  | cons b rest ih =>
    intro idx c pow ap herr
    unfold addBlocksAux at herr ⊢
    rcases hs : blockStep rlpHash encB app hashes rlps idx b c with e | e | c'
    · rw [hs] at herr
      exact absurd (show some e = none from herr) (by simp)
    · rw [hs] at herr
      exact absurd (show some e = none from herr) (by simp)
    · rw [hs] at herr
      have := ih (idx + 1) c' (pow ++ [b.header]) (ap ++ [b]) herr
      simpa [List.append_assoc] using this

/-- When the loop stops on a header-hash or encoding mismatch at index `i`,
the engine was invoked exactly on the blocks before `i`, in order. -/
theorem addBlocksAux_mismatch_applyCalls (rlpHash : Header → Hash) (encB : Block → Bytes)
    (app : Chain → Block → Except EngineError Chain) (recd : Bool)
    (hashes : List Hash) (rlps : List Bytes) :
    ∀ (bs : List Block) (idx : Nat) (c : Chain) (pow : List Header) (ap : List Block) (i : Nat),
    ((addBlocksAux rlpHash encB app recd hashes rlps idx bs c pow ap).err
        = some (ReplayErr.blockHashMismatch i) ∨
     (addBlocksAux rlpHash encB app recd hashes rlps idx bs c pow ap).err
        = some (ReplayErr.blockEncodingMismatch i)) →
    idx ≤ i ∧
    (addBlocksAux rlpHash encB app recd hashes rlps idx bs c pow ap).applyCalls
      = ap ++ bs.take (i - idx) := by
  intro bs
  induction bs with
  | nil =>
    intro idx c pow ap i herr
    exact absurd herr (by simp [addBlocksAux])
  | cons b rest ih =>
    intro idx c pow ap i herr
    unfold addBlocksAux at herr ⊢
    rcases hs : blockStep rlpHash encB app hashes rlps idx b c with e | e | c'
    · rw [hs] at herr
      have hinv := blockStep_failedBefore_inv rlpHash encB app hashes rlps idx b c e hs
      have herr' : some e = some (ReplayErr.blockHashMismatch i) ∨
          some e = some (ReplayErr.blockEncodingMismatch i) := herr
      have hi : idx = i := by
        rcases herr' with h' | h' <;> rcases hinv with h'' | h'' | h'' <;> simp_all
      subst hi
      exact ⟨Nat.le_refl idx, by simp⟩
    · rw [hs] at herr
      obtain ⟨cause, he, -⟩ := blockStep_failedApply_inv rlpHash encB app hashes rlps idx b c e hs
      have herr' : some e = some (ReplayErr.blockHashMismatch i) ∨
          some e = some (ReplayErr.blockEncodingMismatch i) := herr
      subst he
      rcases herr' with h' | h' <;> simp_all
    · rw [hs] at herr
      obtain ⟨hle, happly⟩ := ih (idx + 1) c'
        (pow ++ (if recd then [b.header] else [])) (ap ++ [b]) i herr
      refine ⟨Nat.le_of_succ_le hle, ?_⟩
      show (addBlocksAux rlpHash encB app recd hashes rlps (idx + 1) rest c'
          (pow ++ (if recd then [b.header] else [])) (ap ++ [b])).applyCalls
        = ap ++ List.take (i - idx) (b :: rest)
      rw [happly]
      have hsub : i - idx = (i - (idx + 1)) + 1 := by omega
      rw [hsub, List.take_succ_cons, List.append_assoc]
      rfl

/-- When the loop stops because the engine rejected a block, the failure is
`stateTransitionFailed` at that block's index, the cause is exactly the
engine's failure on the chain as it then stood, and — provided the engine
appends exactly the applied block on success — no block at that index or
beyond was appended to the chain. -/
theorem addBlocksAux_stf (rlpHash : Header → Hash) (encB : Block → Bytes)
    (app : Chain → Block → Except EngineError Chain) (recd : Bool)
    (hashes : List Hash) (rlps : List Bytes) (happ : EngineAppends app) :
    ∀ (bs : List Block) (idx : Nat) (c : Chain) (pow : List Header) (ap : List Block)
      (i : Nat) (cause : EngineError),
    (addBlocksAux rlpHash encB app recd hashes rlps idx bs c pow ap).err
        = some (ReplayErr.stateTransitionFailed i cause) →
    idx ≤ i ∧
    (addBlocksAux rlpHash encB app recd hashes rlps idx bs c pow ap).chain.blocks
      = c.blocks ++ bs.take (i - idx) ∧
    ∃ b, bs[i - idx]? = some b ∧
      app (addBlocksAux rlpHash encB app recd hashes rlps idx bs c pow ap).chain b
        = Except.error cause := by
  intro bs
  induction bs with
  | nil =>
    intro idx c pow ap i cause herr
    exact absurd herr (by simp [addBlocksAux])
  | cons b rest ih =>
    intro idx c pow ap i cause herr
    unfold addBlocksAux at herr ⊢
    rcases hs : blockStep rlpHash encB app hashes rlps idx b c with e | e | c'
    · rw [hs] at herr
      have hinv := blockStep_failedBefore_inv rlpHash encB app hashes rlps idx b c e hs
      have herr' : some e = some (ReplayErr.stateTransitionFailed i cause) := herr
      rcases hinv with h'' | h'' | h'' <;> simp_all
    · rw [hs] at herr
      obtain ⟨cause', he, happc⟩ := blockStep_failedApply_inv rlpHash encB app hashes rlps idx b c e hs
      have herr' : some e = some (ReplayErr.stateTransitionFailed i cause) := herr
      subst he
      obtain ⟨hi, hc⟩ : idx = i ∧ cause' = cause := by simpa using herr'
      subst hi
      subst hc
      refine ⟨Nat.le_refl idx, by simp, b, by simp, by simpa using happc⟩
    · rw [hs] at herr
      obtain ⟨hle, hch, bb, hbb, hae⟩ := ih (idx + 1) c'
        (pow ++ (if recd then [b.header] else [])) (ap ++ [b]) i cause herr
      have hbl := happ c b c' (blockStep_applied_inv rlpHash encB app hashes rlps idx b c c' hs)
      have hsub : i - idx = (i - (idx + 1)) + 1 := by omega
      refine ⟨Nat.le_of_succ_le hle, ?_, bb, ?_, hae⟩
      · show (addBlocksAux rlpHash encB app recd hashes rlps (idx + 1) rest c'
            (pow ++ (if recd then [b.header] else [])) (ap ++ [b])).chain.blocks
          = c.blocks ++ List.take (i - idx) (b :: rest)
        rw [hch, hbl, hsub, List.take_succ_cons, List.append_assoc]
        rfl
      · rw [hsub, List.getElem?_cons_succ]
        exact hbb

/-! ### Lemmas about the decoder -/

/-- The three sequences produced by block-list decoding have equal lengths. -/
theorem json_to_blocks_lengths :
    ∀ (l : List BlockJson) (t : List Block × List Hash × List Bytes),
    json_to_blocks l = Except.ok t →
    t.1.length = t.2.1.length ∧ t.2.1.length = t.2.2.length := by
  intro l
  induction l with
  | nil =>
    intro t h
    obtain rfl : ([], [], []) = t := by simpa [json_to_blocks] using h
    exact ⟨rfl, rfl⟩
  | cons bj rest ih =>
    intro t h
    cases bj with
    | malformed => exact absurd h (by simp [json_to_blocks])
    | valid b hh r =>
      unfold json_to_blocks at h
      cases hr : json_to_blocks rest with
      | error e => rw [hr] at h; exact absurd h (by simp)
      | ok t' =>
        rw [hr] at h
        obtain rfl : (b :: t'.1, hh :: t'.2.1, r :: t'.2.2) = t := by
          simpa using h
        obtain ⟨h1, h2⟩ := ih t' hr
        exact ⟨by simpa using h1, by simpa using h2⟩

/-- A successful decode passes through a successful `json_to_blocks`, whose
three components become the record's three sequences. -/
theorem load_test_ok_inv (fs : FS) (tc : TestCaseRef) (td : TestData)
    (h : load_test fs tc = Except.ok td) :
    ∃ raw decoded, json_to_blocks raw = Except.ok decoded ∧
      td.blocks = decoded.1 ∧ td.block_header_hashes = decoded.2.1 ∧
      td.block_rlps = decoded.2.2 := by
  unfold load_test at h
  simp only [bind, Except.bind] at h
  repeat' split at h
  all_goals try exact (Except.noConfusion h)
  injection h with h2
  subst h2
  exact ⟨_, _, by assumption, rfl, rfl, rfl⟩

/-- C8: for every successfully decoded test, the decoder's three sequences
(blocks, declared header hashes, declared encodings) have equal lengths, so
every block index has both a hash and an encoding to check against. -/
theorem decoded_sequences_aligned (fs : FS) (tc : TestCaseRef) (td : TestData)
    (h : load_test fs tc = Except.ok td) :
    td.blocks.length = td.block_header_hashes.length ∧
    td.block_header_hashes.length = td.block_rlps.length := by
  obtain ⟨raw, decoded, hdec, hb, hh, hr⟩ := load_test_ok_inv fs tc td h
  obtain ⟨h1, h2⟩ := json_to_blocks_lengths raw decoded hdec
  rw [hb, hh, hr]
  exact ⟨h1, h2⟩

/-- Witness for C8 at the concrete corpus `okFS`. -/
theorem decoded_sequences_aligned_witness :
    okTest.blocks.length = okTest.block_header_hashes.length ∧
    okTest.block_header_hashes.length = okTest.block_rlps.length :=
  decoded_sequences_aligned okFS okRef okTest (by rfl)

/-- C6, amended: the byte-exact genesis-encoding check is skipped
unconditionally — the replay's outcome does not depend on the fixture's
declared genesis encoding at all, for every header shape. -/
theorem genesis_encoding_never_checked (L : Load) (td : TestData) (b : Bytes) :
    run_decoded L {td with genesis_block_rlp := b} = run_decoded L td := rfl

/-- Counterexample to C6 as stated: a replay whose fixture has a
non-withdrawal header shape and a genesis encoding that does not match the
genesis block still succeeds — the byte-exact genesis-encoding check is not
performed for this (non-withdrawal) header shape either. -/
theorem genesis_encoding_check_counter :
    (run_decoded okLoad skipEncTest).err = none ∧
    okLoad.encodeBlock (genesis_block skipEncTest) ≠ skipEncTest.genesis_block_rlp ∧
    skipEncTest.genesis_header.hasWithdrawalsRoot = false :=
  ⟨rfl, by decide, rfl⟩

/-- C9: an invalid regular expression in any of the three pattern lists makes
the discoverer fail with the configuration error, with no fixture file read
and no test case yielded. -/
theorem invalid_pattern_fails_fast (fs : FS) (network : String) (only_in : List String)
    (slowPats bigPats ignorePats : List Pattern)
    (h : (slowPats ++ bigPats ++ ignorePats).any Pattern.isInvalid = true) :
    fetch_state_test_files fs network only_in slowPats bigPats ignorePats
      = ⟨Except.error DiscErr.reError, []⟩ := by
  unfold fetch_state_test_files
  rw [h]
  rfl

/-- Witness for C9: a syntactically invalid slow pattern fails the whole
call on a non-empty corpus. -/
theorem invalid_pattern_fails_fast_witness :
    fetch_state_test_files discFS "N" [] [Pattern.invalid] [] []
      = ⟨Except.error DiscErr.reError, []⟩ :=
  invalid_pattern_fails_fast discFS "N" [] [Pattern.invalid] [] [] (by rfl)

/-! ### Lemmas about the post-loop tail of the replay -/

/-- The tail never changes the record of engine invocations. -/
theorem afterBlocks_applyCalls (L : Load) (td : TestData) (mock : Bool) (out : BlocksOut) :
    (afterBlocks L td mock out).applyCalls = out.applyCalls := by
  unfold afterBlocks
  repeat' split
  all_goals rfl

/-- The tail never changes the record of mock-hook invocations. -/
theorem afterBlocks_powCalls (L : Load) (td : TestData) (mock : Bool) (out : BlocksOut) :
    (afterBlocks L td mock out).powCalls = out.powCalls := by
  unfold afterBlocks
  repeat' split
  all_goals rfl

/-- The tail reports the chain the loop ended with. -/
theorem afterBlocks_chain (L : Load) (td : TestData) (mock : Bool) (out : BlocksOut) :
    (afterBlocks L td mock out).chain = some out.chain := by
  unfold afterBlocks
  repeat' split
  all_goals rfl

/-- A failure reported by the tail is either the loop's own failure, or one
of the tail's four assertion sites (in which case the loop succeeded). -/
theorem afterBlocks_err_some (L : Load) (td : TestData) (mock : Bool) (out : BlocksOut)
    (e : ReplayErr) (h : (afterBlocks L td mock out).err = some e) :
    out.err = some e ∨
    (out.err = none ∧ (e = ReplayErr.powCallsMismatch ∨ e = ReplayErr.harnessIndexError ∨
      e = ReplayErr.finalHashMismatch ∨ e = ReplayErr.postStateMismatch)) := by
  unfold afterBlocks at h
  repeat' split at h
  all_goals simp_all

/-- A fully successful run means the loop itself succeeded. -/
theorem afterBlocks_err_none (L : Load) (td : TestData) (mock : Bool) (out : BlocksOut)
    (h : (afterBlocks L td mock out).err = none) : out.err = none := by
  unfold afterBlocks at h
  repeat' split at h
  all_goals simp_all

/-- The stores are released exactly on full success, and then they are the
final chain's state store and the expected post-state store, in that order. -/
theorem afterBlocks_closes (L : Load) (td : TestData) (mock : Bool) (out : BlocksOut) :
    ((afterBlocks L td mock out).err ≠ none → (afterBlocks L td mock out).closes = [])
    ∧ ((afterBlocks L td mock out).err = none →
       (afterBlocks L td mock out).closes = [out.chain.state, td.expected_post_state]) := by
  unfold afterBlocks
  repeat' split
  all_goals simp_all

/-- The replay-proper view of the release discipline: stores are released
exactly on success. -/
theorem run_decoded_closes (L : Load) (td : TestData) :
    ((run_decoded L td).err ≠ none → (run_decoded L td).closes = [])
    ∧ ((run_decoded L td).err = none →
       ∃ c, (run_decoded L td).chain = some c ∧
         (run_decoded L td).closes = [c.state, td.expected_post_state]) := by
  unfold run_decoded
  by_cases hg : L.rlp_hash td.genesis_header = td.genesis_header_hash
  · rw [if_pos hg]
    obtain ⟨h1, h2⟩ := afterBlocks_closes L td (td.ignore_pow_validation && !L.proof_of_stake)
      (add_blocks_to_chain L.rlp_hash L.encodeBlock (selectedApp L td)
        (td.ignore_pow_validation && !L.proof_of_stake) td
        ⟨[genesis_block td], td.pre_state, td.chain_id⟩)
    exact ⟨h1, fun hn => ⟨_, afterBlocks_chain L td _ _, h2 hn⟩⟩
  · rw [if_neg hg]
    exact ⟨fun _ => rfl, fun hn => Option.noConfusion hn⟩

/-! ### The claims about the replay oracle -/

/-- C2, amended: the two state stores are released only when the whole replay
succeeds (and then they are the chain's store followed by the expected
post-state store); on any failure — decode error, assertion failure or
engine error — the error propagates with no store released. -/
theorem state_store_release_amended (L : Load) (fs : FS) (tc : TestCaseRef) :
    ((run_blockchain_st_test L fs tc).err ≠ none →
      (run_blockchain_st_test L fs tc).closes = [])
    ∧ ((run_blockchain_st_test L fs tc).err = none →
      ∃ td c, load_test fs tc = Except.ok td ∧
        (run_blockchain_st_test L fs tc).chain = some c ∧
        (run_blockchain_st_test L fs tc).closes = [c.state, td.expected_post_state]) := by
  unfold run_blockchain_st_test
  cases hl : load_test fs tc with
  | error e => exact ⟨fun _ => rfl, fun hn => Option.noConfusion hn⟩
  | ok td =>
    obtain ⟨h1, h2⟩ := run_decoded_closes L td
    refine ⟨h1, fun hn => ?_⟩
    obtain ⟨c, hc, hcl⟩ := h2 hn
    exact ⟨td, c, rfl, hc, hcl⟩

/-- Counterexample to C2 as stated: a replay that fails its post-state
assertion propagates the failure with no store released — the fixture also
lacks nothing, so the teardown was simply never reached. -/
theorem state_store_release_counter :
    (run_blockchain_st_test okLoad badPostFS okRef).err = some ReplayErr.postStateMismatch ∧
    (run_blockchain_st_test okLoad badPostFS okRef).closes = [] :=
  ⟨rfl, rfl⟩

/-- Witness for the amended C2: the failing replay of `badPostFS` releases
nothing, while the succeeding replay of `okFS` releases both stores. -/
theorem state_store_release_amended_witness :
    (run_blockchain_st_test okLoad badPostFS okRef).closes = [] ∧
    (∃ td c, load_test okFS okRef = Except.ok td ∧
      (run_blockchain_st_test okLoad okFS okRef).chain = some c ∧
      (run_blockchain_st_test okLoad okFS okRef).closes = [c.state, td.expected_post_state]) :=
  ⟨(state_store_release_amended okLoad badPostFS okRef).1 (fun hn => Option.noConfusion hn),
   (state_store_release_amended okLoad okFS okRef).2 rfl⟩

/-- C3: when the replay stops on a header-hash or encoding mismatch at block
index `i`, the engine's state-transition operation was invoked exactly on the
blocks before `i` — never on block `i` or any later block. -/
theorem checks_precede_engine (L : Load) (td : TestData) (i : Nat)
    (h : (run_decoded L td).err = some (ReplayErr.blockHashMismatch i) ∨
         (run_decoded L td).err = some (ReplayErr.blockEncodingMismatch i)) :
    (run_decoded L td).applyCalls = td.blocks.take i := by
  unfold run_decoded at h ⊢
  by_cases hg : L.rlp_hash td.genesis_header = td.genesis_header_hash
  · rw [if_pos hg] at h ⊢
    rw [afterBlocks_applyCalls]
    have hout : (add_blocks_to_chain L.rlp_hash L.encodeBlock (selectedApp L td)
        (td.ignore_pow_validation && !L.proof_of_stake) td
        ⟨[genesis_block td], td.pre_state, td.chain_id⟩).err
          = some (ReplayErr.blockHashMismatch i) ∨
        (add_blocks_to_chain L.rlp_hash L.encodeBlock (selectedApp L td)
        (td.ignore_pow_validation && !L.proof_of_stake) td
        ⟨[genesis_block td], td.pre_state, td.chain_id⟩).err
          = some (ReplayErr.blockEncodingMismatch i) := by
      rcases h with h | h
      · rcases afterBlocks_err_some L td _ _ _ h with h' | ⟨-, h'⟩
        · exact Or.inl h'
        · simp_all
      · rcases afterBlocks_err_some L td _ _ _ h with h' | ⟨-, h'⟩
        · exact Or.inr h'
        · simp_all
    obtain ⟨-, ha⟩ := addBlocksAux_mismatch_applyCalls L.rlp_hash L.encodeBlock
      (selectedApp L td) (td.ignore_pow_validation && !L.proof_of_stake)
      td.block_header_hashes td.block_rlps td.blocks 0
      ⟨[genesis_block td], td.pre_state, td.chain_id⟩ [] [] i hout
    simpa using ha
  · rw [if_neg hg] at h
    simp_all

/-- Witness for C3: with the second declared header hash wrong, the replay
fails at index 1 having applied only block 0. -/
theorem checks_precede_engine_witness :
    (run_decoded okLoad badHashTest).applyCalls = badHashTest.blocks.take 1 :=
  checks_precede_engine okLoad badHashTest 1 (Or.inl (by rfl))

/-- C4: when the replay fails with `stateTransitionFailed i cause`, the cause
is exactly the engine's rejection of block `i` on the chain as it then stood,
no block at index `i` or beyond was appended to the chain (assuming the
engine's append-on-success contract), and the top-level expected-failure
wrapper accepts precisely that failure kind. -/
theorem engine_rejection_halts_replay (L : Load) (td : TestData) (i : Nat)
    (cause : EngineError) (happ : EngineAppends (selectedApp L td))
    (h : (run_decoded L td).err = some (ReplayErr.stateTransitionFailed i cause)) :
    ∃ c, (run_decoded L td).chain = some c ∧
      c.blocks = genesis_block td :: td.blocks.take i ∧
      (∃ b, td.blocks[i]? = some b ∧ selectedApp L td c b = Except.error cause) ∧
      pytest_raises_stf (fun e => decide (e = cause)) (run_decoded L td) = true := by
  unfold run_decoded at h ⊢
  by_cases hg : L.rlp_hash td.genesis_header = td.genesis_header_hash
  · rw [if_pos hg] at h ⊢
    have hout : (add_blocks_to_chain L.rlp_hash L.encodeBlock (selectedApp L td)
        (td.ignore_pow_validation && !L.proof_of_stake) td
        ⟨[genesis_block td], td.pre_state, td.chain_id⟩).err
          = some (ReplayErr.stateTransitionFailed i cause) := by
      rcases afterBlocks_err_some L td _ _ _ h with h' | ⟨-, h'⟩
      · exact h'
      · simp_all
    obtain ⟨-, hch, b, hb, hae⟩ := addBlocksAux_stf L.rlp_hash L.encodeBlock
      (selectedApp L td) (td.ignore_pow_validation && !L.proof_of_stake)
      td.block_header_hashes td.block_rlps happ td.blocks 0
      ⟨[genesis_block td], td.pre_state, td.chain_id⟩ [] [] i cause hout
    refine ⟨_, afterBlocks_chain L td _ _, ?_, ⟨b, ?_, hae⟩, ?_⟩
    · simpa using hch
    · simpa using hb
    · unfold pytest_raises_stf
      rw [h]
      simp
  · rw [if_neg hg] at h
    simp_all

/-- The append-on-success contract holds for the engine `rejectLoad` runs in
bypass mode. -/
theorem rejectLoad_appends : EngineAppends (selectedApp rejectLoad okTest) := by
  intro c b c' h
  have h' : (if b.header.data = 2 then Except.error EngineError.invalidBlock
      else Except.ok (⟨c.blocks ++ [b], c.state, c.chain_id⟩ : Chain)) = Except.ok c' := h
  by_cases hd : b.header.data = 2
  · rw [if_pos hd] at h'
    exact Except.noConfusion h'
  · rw [if_neg hd] at h'
    injection h' with h2
    rw [← h2]

/-- Witness for C4: the engine rejecting block 1 halts the two-block replay
with `stateTransitionFailed 1`, only block 0 appended. -/
theorem engine_rejection_halts_replay_witness :
    ∃ c, (run_decoded rejectLoad okTest).chain = some c ∧
      c.blocks = genesis_block okTest :: okTest.blocks.take 1 ∧
      (∃ b, okTest.blocks[1]? = some b ∧
        selectedApp rejectLoad okTest c b = Except.error EngineError.invalidBlock) ∧
      pytest_raises_stf (fun e => decide (e = EngineError.invalidBlock))
        (run_decoded rejectLoad okTest) = true :=
  engine_rejection_halts_replay rejectLoad okTest 1 EngineError.invalidBlock
    rejectLoad_appends (by rfl)

/-- C1: with consensus bypass requested and a non-proof-of-stake engine, the
replay substitutes the always-succeeding mock for proof-of-work validation
and, when the replay completes, has recorded exactly one hook invocation per
block of the test, in block order, with that block's header; with bypass off
or a proof-of-stake engine, the hook is not substituted and nothing is
recorded against the mock. -/
theorem consensus_bypass_hook_contract (L : Load) (td : TestData) :
    (td.ignore_pow_validation = true → L.proof_of_stake = false →
      selectedApp L td = L.state_transition_bypassed ∧
      ((run_decoded L td).err = none →
        (run_decoded L td).powCalls = td.blocks.map (fun b => b.header)))
    ∧ ((td.ignore_pow_validation = false ∨ L.proof_of_stake = true) →
      selectedApp L td = L.state_transition ∧ (run_decoded L td).powCalls = []) := by
  constructor
  · intro hb hp
    have hm : (td.ignore_pow_validation && !L.proof_of_stake) = true := by
      rw [hb, hp]; rfl
    constructor
    · unfold selectedApp
      rw [hm]
      rfl
    · intro herr
      unfold run_decoded at herr ⊢
      by_cases hg : L.rlp_hash td.genesis_header = td.genesis_header_hash
      · rw [if_pos hg] at herr ⊢
        rw [afterBlocks_powCalls]
        rw [hm] at herr ⊢
        have hout := afterBlocks_err_none L td _ _ herr
        have := addBlocksAux_pow_recorded L.rlp_hash L.encodeBlock (selectedApp L td)
          td.block_header_hashes td.block_rlps td.blocks 0
          ⟨[genesis_block td], td.pre_state, td.chain_id⟩ [] [] hout
        simpa using this
      · rw [if_neg hg] at herr
        exact Option.noConfusion herr
  · intro hnm
    have hm : (td.ignore_pow_validation && !L.proof_of_stake) = false := by
      rcases hnm with h | h <;> simp [h]
    constructor
    · unfold selectedApp
      rw [hm]
      rfl
    · unfold run_decoded
      by_cases hg : L.rlp_hash td.genesis_header = td.genesis_header_hash
      · rw [if_pos hg]
        rw [afterBlocks_powCalls]
        rw [hm]
        exact addBlocksAux_pow_not_recorded L.rlp_hash L.encodeBlock (selectedApp L td)
          td.block_header_hashes td.block_rlps td.blocks 0
          ⟨[genesis_block td], td.pre_state, td.chain_id⟩ [] []
      · rw [if_neg hg]

/-- Witness for C1: the bypassed two-block replay records both headers in
order; the proof-of-stake engine's replay records nothing. -/
theorem consensus_bypass_hook_contract_witness :
    (run_decoded okLoad okTest).powCalls = okTest.blocks.map (fun b => b.header) ∧
    (run_decoded posLoad okTest).powCalls = [] :=
  ⟨((consensus_bypass_hook_contract okLoad okTest).1 rfl rfl).2 rfl,
   ((consensus_bypass_hook_contract posLoad okTest).2 (Or.inr rfl)).2⟩

/-! ### The claims about the decoder's error order -/

/-- C5, amended: a fixture object whose `blocks` member is present and
decodable but which lacks `postState` fails with `NoPostState` — and that
failure takes priority over every field examined later (genesis header,
genesis RLP, last block hash, pre-state, seal engine). -/
theorem missing_post_state_amended (fs : FS) (tc : TestCaseRef) (ff : FixtureFile)
    (jt : JsonTest) (raw : List BlockJson) (decoded : List Block × List Hash × List Bytes)
    (h1 : assocLookup fs tc.test_file = some ff)
    (h2 : assocLookup ff tc.test_key = some jt)
    (h3 : jt.blocks = some raw)
    (h4 : json_to_blocks raw = Except.ok decoded)
    (h5 : jt.postState = none) :
    load_test fs tc = Except.error LoadErr.noPostState := by
  unfold load_test
  simp [h1, h2, h3, h4, h5, require, bind, Except.bind]

/-- Counterexample to C5 as stated: a fixture lacking both `blocks` and
`postState` fails with the `blocks` key error, not with `NoPostState` — the
`blocks` access precedes the post-state check. -/
theorem missing_post_state_counter :
    noBlocksJson.postState = none ∧
    load_test noBlocksFS okRef = Except.error (LoadErr.keyError "blocks") ∧
    load_test noBlocksFS okRef ≠ Except.error LoadErr.noPostState := by
  refine ⟨rfl, rfl, ?_⟩
  intro h
  have hb : (Except.error (LoadErr.keyError "blocks") : Except LoadErr TestData)
      = Except.error LoadErr.noPostState := h
  simp at hb

/-- Witness for the amended C5 at the concrete fixture lacking only
`postState`. -/
theorem missing_post_state_amended_witness :
    load_test noPostFS okRef = Except.error LoadErr.noPostState :=
  missing_post_state_amended noPostFS okRef [("t", noPostJson)] noPostJson
    [BlockJson.valid (blk 1) 1 [1], BlockJson.valid (blk 2) 2 [2]]
    ([blk 1, blk 2], [1, 2], [[1], [2]])
    rfl rfl rfl rfl rfl

/-! ### The claims about discovery -/

/-- `none == some a` is `false` for the `Option` equality test. -/
theorem none_beq_some {α : Type} [BEq α] (a : α) :
    ((none : Option α) == some a) = false := rfl

/-- A file whose test objects all lack the `network` member collects no key. -/
theorem foundKeys_nil_of_no_network (tests : FixtureFile) (network : String)
    (h : ∀ kt ∈ tests, kt.2.network = none) : foundKeys tests network = [] := by
  unfold foundKeys
  have hfil : tests.filter (fun kt => kt.2.network == some network) = [] := by
    rw [List.filter_eq_nil_iff]
    intro kt hkt
    rw [h kt hkt]
    simp [none_beq_some]
  rw [hfil]
  rfl

/-- Such a file contributes nothing to the yield. -/
theorem processFile_no_network (sl bg ig : List Pattern) (network p : String)
    (tests : FixtureFile) (h : ∀ kt ∈ tests, kt.2.network = none) :
    processFile sl bg ig network p tests = [] := by
  unfold processFile load_json_fixture
  rw [foundKeys_nil_of_no_network tests network h]
  rfl

/-- The empty file contributes nothing to the yield. -/
theorem processFile_nil (sl bg ig : List Pattern) (network q : String) :
    processFile sl bg ig network q [] = [] := rfl

/-- A successful lookup finds a genuine entry of the association list. -/
theorem assocLookup_mem {α : Type} :
    ∀ (l : List (String × α)) (q : String) (a : α),
    assocLookup l q = some a → (q, a) ∈ l := by
  intro l
  induction l with
  | nil => intro q a h; exact Option.noConfusion h
  | cons e rest ih =>
    intro q a h
    obtain ⟨k, v⟩ := e
    unfold assocLookup at h
    by_cases hk : k = q
    · rw [if_pos hk] at h
      injection h with h2
      rw [← hk, ← h2]
      exact List.mem_cons_self (k, v) rest
    · rw [if_neg hk] at h
      exact List.mem_cons_of_mem _ (ih q a h)

/-- Looking up around one distinguished entry: either both variants of the
list answer identically, or both answer with their distinguished value. -/
theorem assocLookup_mid {α : Type} (p : String) (a b : α) :
    ∀ (l1 l2 : List (String × α)) (q : String),
    assocLookup (l1 ++ (p, a) :: l2) q = assocLookup (l1 ++ (p, b) :: l2) q ∨
    (assocLookup (l1 ++ (p, a) :: l2) q = some a ∧
     assocLookup (l1 ++ (p, b) :: l2) q = some b) := by
  intro l1
  induction l1 with
  | nil =>
    intro l2 q
    by_cases hpq : p = q
    · right
      constructor <;> (show (if p = q then _ else _) = _; rw [if_pos hpq])
    · left
      show (if p = q then _ else _) = (if p = q then _ else _)
      rw [if_neg hpq, if_neg hpq]
  | cons e l1' ih =>
    intro l2 q
    obtain ⟨ke, ve⟩ := e
    by_cases hk : ke = q
    · left
      show (if ke = q then _ else _) = (if ke = q then _ else _)
      rw [if_pos hk, if_pos hk]
    · rcases ih l2 q with h | ⟨h1, h2⟩
      · left
        show (if ke = q then _ else _) = (if ke = q then _ else _)
        rw [if_neg hk, if_neg hk]
        exact h
      · right
        constructor <;> (show (if ke = q then _ else _) = _; rw [if_neg hk])
        · exact h1
        · exact h2

/-- Inserting a network-less test object anywhere in a file leaves the
collected keys unchanged. -/
theorem foundKeys_insert_none (ff1 ff2 : FixtureFile) (k : String) (t : JsonTest)
    (network : String) (h : t.network = none) :
    foundKeys (ff1 ++ (k, t) :: ff2) network = foundKeys (ff1 ++ ff2) network := by
  unfold foundKeys
  simp [List.filter_append, List.filter_cons, h, none_beq_some]

/-- Inserting a network-less test object anywhere in a file leaves the file's
contribution to the yield unchanged, for every path and every requested
network. -/
theorem processFile_insert_none (sl bg ig : List Pattern) (network q : String)
    (ff1 ff2 : FixtureFile) (k : String) (t : JsonTest) (h : t.network = none) :
    processFile sl bg ig network q (ff1 ++ (k, t) :: ff2)
      = processFile sl bg ig network q (ff1 ++ ff2) := by
  unfold processFile load_json_fixture
  rw [foundKeys_insert_none ff1 ff2 k t network h]

/-- Directory-walk discovery depends on a file's content only through that
file's contribution to the yield. -/
theorem processFilesAux_congr_file (sl bg ig : List Pattern) (network p : String)
    (ffA ffB : FixtureFile)
    (hpf : processFile sl bg ig network p ffA = processFile sl bg ig network p ffB) :
    ∀ l1 l2 : List (String × FixtureFile),
    processFilesAux sl bg ig network (l1 ++ (p, ffA) :: l2)
      = processFilesAux sl bg ig network (l1 ++ (p, ffB) :: l2) := by
  intro l1
  induction l1 with
  | nil =>
    intro l2
    rw [List.nil_append, List.nil_append]
    unfold processFilesAux
    rw [hpf]
  | cons e l1' ih =>
    intro l2
    obtain ⟨pe, ffe⟩ := e
    rw [List.cons_append, List.cons_append]
    unfold processFilesAux
    rw [ih l2]

/-- `only_in` discovery likewise depends on a file's content only through
that file's contribution to the yield. -/
theorem processPathsAux_congr_file (sl bg ig : List Pattern) (network p : String)
    (ffA ffB : FixtureFile) (l1 l2 : FS)
    (hpf : ∀ q, processFile sl bg ig network q ffA = processFile sl bg ig network q ffB) :
    ∀ paths : List String,
    processPathsAux (l1 ++ (p, ffA) :: l2) sl bg ig network paths
      = processPathsAux (l1 ++ (p, ffB) :: l2) sl bg ig network paths := by
  intro paths
  induction paths with
  | nil => rfl
  | cons q rest ih =>
    unfold processPathsAux
    rcases assocLookup_mid p ffA ffB l1 l2 q with heq | ⟨ha, hb⟩
    · rw [heq, ih]
    · rw [ha, hb, ih]
      rcases hrec : processPathsAux (l1 ++ (p, ffB) :: l2) sl bg ig network rest
        with ⟨res, rs⟩
      cases res with
      | error e => rfl
      | ok ys =>
        show (Except.ok (processFile sl bg ig network q ffA ++ ys), q :: rs)
          = (Except.ok (processFile sl bg ig network q ffB ++ ys), q :: rs)
        rw [hpf q]

/-- The discoverer's whole output depends on a file's content only through
that file's contribution to the yield, in both modes. -/
theorem fetch_congr_file (network : String) (only_in : List String)
    (slowPats bigPats ignorePats : List Pattern) (fs1 fs2 : FS) (p : String)
    (ffA ffB : FixtureFile)
    (hpf : ∀ q, processFile slowPats bigPats ignorePats network q ffA
      = processFile slowPats bigPats ignorePats network q ffB) :
    fetch_state_test_files (fs1 ++ (p, ffA) :: fs2) network only_in
        slowPats bigPats ignorePats
      = fetch_state_test_files (fs1 ++ (p, ffB) :: fs2) network only_in
        slowPats bigPats ignorePats := by
  unfold fetch_state_test_files
  by_cases hinv : ((slowPats ++ bigPats ++ ignorePats).any Pattern.isInvalid) = true
  · rw [if_pos hinv, if_pos hinv]
  · rw [if_neg hinv, if_neg hinv]
    by_cases ho : only_in.length ≠ 0
    · rw [if_pos ho, if_pos ho, processPathsAux_congr_file slowPats bigPats ignorePats
        network p ffA ffB fs1 fs2 hpf only_in]
    · rw [if_neg ho, if_neg ho, List.filter_append, List.filter_append,
        List.filter_cons, List.filter_cons]
      by_cases hig : (!(matchesAny ignorePats p)) = true
      · rw [if_pos hig, if_pos hig, processFilesAux_congr_file slowPats bigPats ignorePats
          network p ffA ffB (hpf p)]
      · rw [if_neg hig, if_neg hig]

/-- A yielded item carries the path and key it was classified under. -/
theorem tagItem_some_ref (sl bg ig : List Pattern) (p k : String) (y : YieldItem)
    (h : tagItem sl bg ig p k = some y) : y.ref = ⟨p, k⟩ := by
  unfold tagItem at h
  by_cases h1 : matchesAny ig ("(" ++ p ++ "|" ++ k ++ ")") = true
  · rw [if_pos h1] at h
    exact Option.noConfusion h
  · rw [if_neg h1] at h
    by_cases h2 : matchesAny sl ("(" ++ p ++ "|" ++ k ++ ")") = true
    · rw [if_pos h2] at h
      injection h with h2'
      rw [← h2']
    · rw [if_neg h2] at h
      by_cases h3 : matchesAny bg ("(" ++ p ++ "|" ++ k ++ ")") = true
      · rw [if_pos h3] at h
        injection h with h3'
        rw [← h3']
      · rw [if_neg h3] at h
        injection h with h4'
        rw [← h4']

/-- A positive `Option String` equality test is an equality. -/
theorem option_str_beq_eq (o : Option String) (s : String)
    (h : (o == some s) = true) : o = some s := by
  cases o with
  | none => exact absurd h (by rw [none_beq_some]; simp)
  | some v =>
    have hv : v = s := eq_of_beq h
    rw [hv]

/-- A successful `load_json_fixture` returns exactly the collected keys. -/
theorem load_json_fixture_ok_keys (ff : FixtureFile) (network : String)
    (keys : List String) (h : load_json_fixture ff network = Except.ok keys) :
    keys = foundKeys ff network := by
  unfold load_json_fixture at h
  split at h
  · exact Except.noConfusion h
  · injection h with h2
    exact h2.symm

/-- Every case a file contributes to the yield originates from a test object
of that file whose `network` equals the requested network. -/
theorem mem_processFile (sl bg ig : List Pattern) (network p : String)
    (ff : FixtureFile) (y : YieldItem) (hy : y ∈ processFile sl bg ig network p ff) :
    ∃ t, (y.ref.test_key, t) ∈ ff ∧ t.network = some network ∧
      y.ref.test_file = p := by
  unfold processFile at hy
  split at hy
  · simp at hy
  · rename_i keys hk
    rw [List.mem_filterMap] at hy
    obtain ⟨k, hkmem, htag⟩ := hy
    have href : y.ref = ⟨p, k⟩ := tagItem_some_ref sl bg ig p k y htag
    rw [load_json_fixture_ok_keys ff network keys hk] at hkmem
    unfold foundKeys at hkmem
    rw [List.mem_map] at hkmem
    obtain ⟨kt, hktf, hk1⟩ := hkmem
    rw [List.mem_filter] at hktf
    obtain ⟨hktm, hbeq⟩ := hktf
    refine ⟨kt.2, ?_, option_str_beq_eq kt.2.network network hbeq, by rw [href]⟩
    rw [href]
    show (k, kt.2) ∈ ff
    rw [← hk1]
    simpa using hktm

/-- Every case the directory walk yields originates from a test object, in a
walked file, whose `network` equals the requested network. -/
theorem mem_processFilesAux (sl bg ig : List Pattern) (network : String) :
    ∀ (l : List (String × FixtureFile)) (y : YieldItem),
    y ∈ (processFilesAux sl bg ig network l).1 →
    ∃ ff t, (y.ref.test_file, ff) ∈ l ∧ (y.ref.test_key, t) ∈ ff ∧
      t.network = some network := by
  intro l
  induction l with
  | nil => intro y hy; simp [processFilesAux] at hy
  | cons e rest ih =>
    intro y hy
    obtain ⟨p, ff⟩ := e
    unfold processFilesAux at hy
    rw [List.mem_append] at hy
    rcases hy with hy | hy
    · obtain ⟨t, hkt, hnet, hpf⟩ := mem_processFile sl bg ig network p ff y hy
      refine ⟨ff, t, ?_, hkt, hnet⟩
      rw [hpf]
      exact List.mem_cons_self (p, ff) rest
    · obtain ⟨ff', t, h1, h2, h3⟩ := ih y hy
      exact ⟨ff', t, List.mem_cons_of_mem _ h1, h2, h3⟩

/-- Every case `only_in` mode yields originates from a test object, in a
looked-up file of the corpus, whose `network` equals the requested network. -/
theorem mem_processPathsAux (fs : FS) (sl bg ig : List Pattern) (network : String) :
    ∀ (paths : List String) (items : List YieldItem),
    (processPathsAux fs sl bg ig network paths).1 = Except.ok items →
    ∀ y ∈ items, ∃ ff t, (y.ref.test_file, ff) ∈ fs ∧ (y.ref.test_key, t) ∈ ff ∧
      t.network = some network := by
  intro paths
  induction paths with
  | nil =>
    intro items h y hy
    obtain rfl : ([] : List YieldItem) = items := by
      have h' : (Except.ok ([] : List YieldItem) : Except DiscErr (List YieldItem))
          = Except.ok items := h
      injection h'
    simp at hy
  | cons q rest ih =>
    intro items h y hy
    unfold processPathsAux at h
    cases hlk : assocLookup fs q with
    | none =>
      rw [hlk] at h
      exact Except.noConfusion h
    | some ff =>
      rw [hlk] at h
      rcases hrec : processPathsAux fs sl bg ig network rest with ⟨res, rs⟩
      rw [hrec] at h
      cases res with
      | error e => exact Except.noConfusion h
      | ok ys =>
        have h2 : processFile sl bg ig network q ff ++ ys = items := by
          have h' : (Except.ok (processFile sl bg ig network q ff ++ ys) :
              Except DiscErr (List YieldItem)) = Except.ok items := h
          injection h'
        rw [← h2, List.mem_append] at hy
        rcases hy with hy | hy
        · obtain ⟨t, hkt, hnet, hpf⟩ := mem_processFile sl bg ig network q ff y hy
          refine ⟨ff, t, ?_, hkt, hnet⟩
          rw [hpf]
          exact assocLookup_mem fs q ff hlk
        · exact ih ys (by rw [hrec]) y hy

/-- C10: a test object with no `network` member is silently non-participating
in discovery.  (a) Every yielded case originates from a test object whose
`network` equals the requested network — so a network-less object is never
the origin of a yield, for any requested network.  (b) Inserting a
network-less object anywhere into any file of any corpus, in either mode and
under any pattern configuration, leaves the discoverer's entire output —
yields, errors and reads — unchanged.  (c) A file whose every object lacks
`network` behaves, in general corpus position, exactly like a file with zero
tests for the requested fork.  (d) Discovery over such a file yields nothing
and raises no error (the file was still read). -/
theorem no_network_objects_skipped :
    (∀ (fs : FS) (network : String) (only_in : List String)
       (slowPats bigPats ignorePats : List Pattern) (items : List YieldItem),
      (fetch_state_test_files fs network only_in slowPats bigPats ignorePats).result
        = Except.ok items →
      ∀ y ∈ items, ∃ ff t, (y.ref.test_file, ff) ∈ fs ∧
        (y.ref.test_key, t) ∈ ff ∧ t.network = some network)
    ∧ (∀ (fs1 fs2 : FS) (p : String) (ff1 ff2 : FixtureFile) (k : String) (t : JsonTest)
       (network : String) (only_in : List String)
       (slowPats bigPats ignorePats : List Pattern),
      t.network = none →
      fetch_state_test_files (fs1 ++ (p, ff1 ++ (k, t) :: ff2) :: fs2) network only_in
          slowPats bigPats ignorePats
        = fetch_state_test_files (fs1 ++ (p, ff1 ++ ff2) :: fs2) network only_in
          slowPats bigPats ignorePats)
    ∧ (∀ (fs1 fs2 : FS) (p : String) (tests : FixtureFile) (network : String)
       (only_in : List String) (slowPats bigPats ignorePats : List Pattern),
      (∀ kt ∈ tests, kt.2.network = none) →
      fetch_state_test_files (fs1 ++ (p, tests) :: fs2) network only_in
          slowPats bigPats ignorePats
        = fetch_state_test_files (fs1 ++ (p, ([] : FixtureFile)) :: fs2) network only_in
          slowPats bigPats ignorePats)
    ∧ (∀ (p : String) (tests : FixtureFile) (network : String),
      (∀ kt ∈ tests, kt.2.network = none) →
      fetch_state_test_files [(p, tests)] network [] [] [] []
        = ⟨Except.ok [], [p]⟩) := by
  refine ⟨?_, ?_, ?_, ?_⟩
  · intro fs network only_in slowPats bigPats ignorePats items h y hy
    unfold fetch_state_test_files at h
    by_cases hinv : ((slowPats ++ bigPats ++ ignorePats).any Pattern.isInvalid) = true
    · rw [if_pos hinv] at h
      exact Except.noConfusion h
    · rw [if_neg hinv] at h
      by_cases ho : only_in.length ≠ 0
      · rw [if_pos ho] at h
        exact mem_processPathsAux fs slowPats bigPats ignorePats network only_in items h y hy
      · rw [if_neg ho] at h
        have h2 : (processFilesAux slowPats bigPats ignorePats network
            (fs.filter (fun e => !(matchesAny ignorePats e.1)))).1 = items := by
          have h' : (Except.ok ((processFilesAux slowPats bigPats ignorePats network
              (fs.filter (fun e => !(matchesAny ignorePats e.1)))).1) :
              Except DiscErr (List YieldItem)) = Except.ok items := h
          injection h'
        rw [← h2] at hy
        obtain ⟨ff, t, h1, h3, h4⟩ := mem_processFilesAux slowPats bigPats ignorePats
          network (fs.filter (fun e => !(matchesAny ignorePats e.1))) y hy
        exact ⟨ff, t, List.mem_of_mem_filter h1, h3, h4⟩
  · intro fs1 fs2 p ff1 ff2 k t network only_in slowPats bigPats ignorePats h
    exact fetch_congr_file network only_in slowPats bigPats ignorePats fs1 fs2 p
      (ff1 ++ (k, t) :: ff2) (ff1 ++ ff2)
      (fun q => processFile_insert_none slowPats bigPats ignorePats network q ff1 ff2 k t h)
  · intro fs1 fs2 p tests network only_in slowPats bigPats ignorePats h
    exact fetch_congr_file network only_in slowPats bigPats ignorePats fs1 fs2 p tests []
      (fun q => by
        rw [processFile_no_network slowPats bigPats ignorePats network q tests h,
          processFile_nil])
  · intro p tests network h
    unfold fetch_state_test_files
    simp only [List.any_nil, List.length_nil, ne_eq, not_true_eq_false, if_false,
      Bool.false_eq_true, List.filter_cons, matchesAny, Bool.not_false, if_true,
      List.filter_nil, processFilesAux,
      processFile_no_network [] [] [] network p tests h]
    rfl

/-- Witness for C10: (a) the single case yielded from the mixed-file corpus
originates from the participating object; (b) removing the network-less
object from that file changes nothing; (c) the all-network-less file equals
the empty file; (d) discovery over it yields nothing without error. -/
theorem no_network_objects_skipped_witness :
    (∀ y ∈ [YieldItem.mk ⟨"m.json", "k1"⟩ Tag.plain],
      ∃ ff t, (y.ref.test_file, ff) ∈ mixedFS ∧ (y.ref.test_key, t) ∈ ff ∧
        t.network = some "N")
    ∧ fetch_state_test_files [("m.json", [("kn", noNetJson), ("k1", netJson "N")])]
        "N" [] [] [] []
      = fetch_state_test_files [("m.json", [("k1", netJson "N")])] "N" [] [] [] []
    ∧ fetch_state_test_files [("f.json", [("t", noNetJson)])] "Shanghai" [] [] [] []
      = fetch_state_test_files [("f.json", ([] : FixtureFile))] "Shanghai" [] [] [] []
    ∧ fetch_state_test_files [("f.json", [("t", noNetJson)])] "Shanghai" [] [] [] []
      = ⟨Except.ok [], ["f.json"]⟩ :=
  ⟨no_network_objects_skipped.1 mixedFS "N" [] [] [] []
      [YieldItem.mk ⟨"m.json", "k1"⟩ Tag.plain] rfl,
   no_network_objects_skipped.2.1 [] [] "m.json" [] [("k1", netJson "N")] "kn" noNetJson
      "N" [] [] [] [] rfl,
   no_network_objects_skipped.2.2.1 [] [] "f.json" [("t", noNetJson)] "Shanghai" [] [] [] []
      (by intro kt hkt; simp at hkt; rw [hkt]; rfl),
   no_network_objects_skipped.2.2.2 "f.json" [("t", noNetJson)] "Shanghai"
      (by intro kt hkt; simp at hkt; rw [hkt]; rfl)⟩


/-- Pushing a projection-and-filter through `filterMap`. -/
theorem filterMap_map_filter {α β γ : Type} (q : α → Bool) (pr : α → β) (g : β → Option γ) :
    ∀ l : List α, ((l.filter q).map pr).filterMap g
      = l.filterMap (fun a => if q a then g (pr a) else none) := by
  intro l
  induction l with
  | nil => rfl
  | cons a t ih =>
    by_cases hq : q a = true
    · simp only [List.filter_cons, hq, if_true, List.map_cons, List.filterMap_cons, ih]
    · rw [Bool.not_eq_true] at hq
      simp only [List.filter_cons, hq, Bool.false_eq_true, if_false, List.filterMap_cons, ih]

/-- One file's contribution to the yield agrees with the claim's description,
provided the file does not trip the all-empty-keys truthiness quirk. -/
theorem processFile_eq_claimedFile (sl bg ig : List Pattern) (network p : String)
    (ff : FixtureFile)
    (h2 : foundKeys ff network = [] ∨
      (foundKeys ff network).all (fun k => k == "") = false) :
    processFile sl bg ig network p ff
      = ff.filterMap (fun kt =>
          if kt.2.network == some network then tagItem sl bg ig p kt.1 else none) := by
  unfold processFile load_json_fixture
  rcases h2 with h | h
  · have hfil : ff.filter (fun kt => kt.2.network == some network) = [] := by
      have h' := h
      unfold foundKeys at h'
      exact List.map_eq_nil_iff.mp h'
    rw [h]
    simp only [List.all_nil, if_true]
    symm
    rw [List.filterMap_eq_nil_iff]
    intro kt hkt
    have hno : (kt.2.network == some network) = false := by
      by_contra hc
      rw [Bool.not_eq_false] at hc
      have : kt ∈ ff.filter (fun kt => kt.2.network == some network) :=
        List.mem_filter.mpr ⟨hkt, hc⟩
      rw [hfil] at this
      simp at this
    rw [hno]
    simp
  · rw [h]
    simp only [Bool.false_eq_true, if_false]
    unfold foundKeys
    exact filterMap_map_filter (fun kt => kt.2.network == some network)
      (fun kt => kt.1) (tagItem sl bg ig p) ff

/-- Directory-walk discovery agrees with the claim's yield set file by file,
under the same quirk-avoiding side condition. -/
theorem processFilesAux_eq_claimed (sl bg ig : List Pattern) (network : String) :
    ∀ fs : FS, (∀ pf ∈ fs, foundKeys pf.2 network = [] ∨
        (foundKeys pf.2 network).all (fun k => k == "") = false) →
    (processFilesAux sl bg ig network fs).1 = claimed_yield sl bg ig network fs := by
  intro fs
  induction fs with
  | nil => intro _; rfl
  | cons pf rest ih =>
    intro h
    obtain ⟨p, ff⟩ := pf
    unfold processFilesAux claimed_yield
    rw [processFile_eq_claimedFile sl bg ig network p ff (h (p, ff) (by simp)),
      ih (fun pf hpf => h pf (by simp [hpf]))]

/-- C7, amended: in directory-walk mode, when every pattern is a valid
regular expression, no ignore pattern matches any fixture file's path (the
code also drops whole files on path-level ignore matches), and no file's
matching keys are all empty strings (a truthiness quirk of the
`not any(found_keys)` check), the discoverer yields exactly the test keys
whose `network` equals the requested string, minus those whose composite
identifier matches an ignore pattern, each tagged at most once with ignore
checked first, then slow, then big-memory. -/
theorem discoverer_yield_amended (fs : FS) (network : String)
    (slowPats bigPats ignorePats : List Pattern)
    (hvalid : (slowPats ++ bigPats ++ ignorePats).any Pattern.isInvalid = false)
    (hpath : ∀ pf ∈ fs, matchesAny ignorePats pf.1 = false)
    (hkeys : ∀ pf ∈ fs, foundKeys pf.2 network = [] ∨
      (foundKeys pf.2 network).all (fun k => k == "") = false) :
    (fetch_state_test_files fs network [] slowPats bigPats ignorePats).result
      = Except.ok (claimed_yield slowPats bigPats ignorePats network fs) := by
  unfold fetch_state_test_files
  rw [hvalid]
  simp only [Bool.false_eq_true, if_false, List.length_nil, ne_eq, not_true_eq_false]
  have hfil : fs.filter (fun e => !(matchesAny ignorePats e.1)) = fs := by
    rw [List.filter_eq_self]
    intro pf hpf
    rw [hpath pf hpf]
    rfl
  rw [hfil]
  exact congrArg Except.ok (processFilesAux_eq_claimed slowPats bigPats ignorePats
    network fs hkeys)

/-- Counterexample to C7 as stated: with the fully anchored ignore pattern
`^a\.json$` (which matches the file's path but not any composite identifier),
the discoverer yields nothing from `a.json`, although the claim's set —
matching keys minus identifier-level ignore matches — still contains its one
matching key. -/
theorem discoverer_yield_counter :
    (fetch_state_test_files c7FS "N" [] [] [] [Pattern.anchored "a.json"]).result
      = Except.ok [] ∧
    claimed_yield [] [] [Pattern.anchored "a.json"] "N" c7FS
      = [⟨⟨"a.json", "k"⟩, Tag.plain⟩] ∧
    (Except.ok ([] : List YieldItem) : Except DiscErr (List YieldItem))
      ≠ Except.ok [YieldItem.mk ⟨"a.json", "k"⟩ Tag.plain] := by
  refine ⟨rfl, rfl, ?_⟩
  intro h
  injection h with h2
  exact List.noConfusion h2

/-- Witness for the amended C7 on a two-file corpus with one slow tag and one
identifier-level ignore drop. -/
theorem discoverer_yield_amended_witness :
    (fetch_state_test_files discFS "N" []
        [Pattern.literal "k3"] [] [Pattern.literal "k1"]).result
      = Except.ok (claimed_yield [Pattern.literal "k3"] [] [Pattern.literal "k1"] "N" discFS) :=
  discoverer_yield_amended discFS "N" [Pattern.literal "k3"] [] [Pattern.literal "k1"]
    (by rfl) (by decide) (by decide)

end LoadStateTests
